import Mathlib

/-!
Verification of the `repositorysdk` data-access layer against its
specification.  The Go sources are shallowly embedded: pointer-receiver
methods that mutate their receiver become functions returning the result
value together with the updated record; `int` (64-bit) arithmetic that can
overflow is wrapped explicitly; fallible operations return `Except`.
-/

namespace Repositorysdk

/-- Go `int` is 64-bit two's complement; `wrap64` reduces an unbounded
integer to the value a Go `int` would hold after an overflowing operation. -/
def wrap64 (x : Int) : Int := (x + 2 ^ 63) % 2 ^ 64 - 2 ^ 63

/-- Errors surfaced by the gorm-backed repository layer and the transaction
helper: `gorm.ErrRecordNotFound`, `sql.ErrTxDone` (commit or rollback of an
already-finished transaction), and generic backend failures. -/
inductive DBErr
  | recordNotFound
  | txDone
  | queryError (msg : String)
  deriving DecidableEq

/-- `PaginationMetadata` from the SDK: items per page, item count of the
current page, total item count, current page, total page count (Go `int`
fields, modelled as unbounded `Int`; all operations below only compare,
assign, or wrap explicitly). -/
structure PaginationMetadata where
  ItemsPerPage : Int
  ItemCount : Int
  TotalItem : Int
  CurrentPage : Int
  TotalPage : Int
  deriving DecidableEq

/-- `GetItemPerPage`: clamps the stored `ItemsPerPage` into `[10, 100]` in
place (two sequential `if` statements in the source) and returns the stored
value.  Returns the value together with the mutated receiver. -/
def PaginationMetadata.GetItemPerPage (p : PaginationMetadata) :
    Int × PaginationMetadata :=
  let q := if p.ItemsPerPage < 10 then { p with ItemsPerPage := 10 } else p
  let r := if q.ItemsPerPage > 100 then { q with ItemsPerPage := 100 } else q
  (r.ItemsPerPage, r)

/-- `GetCurrentPage`: clamps the stored `CurrentPage` to a minimum of 1 in
place and returns the stored value. -/
def PaginationMetadata.GetCurrentPage (p : PaginationMetadata) :
    Int × PaginationMetadata :=
  let q := if p.CurrentPage < 1 then { p with CurrentPage := 1 } else p
  (q.CurrentPage, q)

/-- `GetOffset`: `(p.GetCurrentPage() - 1) * p.GetItemPerPage()`.  Go
evaluates the receiver mutations left to right; the multiplication is Go
`int` arithmetic, hence wrapped.  (The subtraction cannot overflow: the
clamped current page is at least 1.) -/
def PaginationMetadata.GetOffset (p : PaginationMetadata) :
    Int × PaginationMetadata :=
  let c := p.GetCurrentPage
  let i := c.2.GetItemPerPage
  (wrap64 ((c.1 - 1) * i.1), i.2)

/-- `CalItemPerPage`: lowers `ItemsPerPage` to `ItemCount` when the latter
is smaller; otherwise leaves the record unchanged. -/
def PaginationMetadata.CalItemPerPage (p : PaginationMetadata) :
    PaginationMetadata :=
  if p.ItemCount < p.ItemsPerPage then { p with ItemsPerPage := p.ItemCount }
  else p

section PaginationLemmas

variable (p : PaginationMetadata)

theorem getItemPerPage_fst :
    (p.GetItemPerPage).1 =
      if p.ItemsPerPage < 10 then 10
      else if p.ItemsPerPage > 100 then 100
      else p.ItemsPerPage := by
  simp only [PaginationMetadata.GetItemPerPage]
  split_ifs <;> simp_all

theorem getItemPerPage_snd :
    (p.GetItemPerPage).2 = { p with ItemsPerPage := (p.GetItemPerPage).1 } := by
  simp only [PaginationMetadata.GetItemPerPage]
  split_ifs <;> simp_all

theorem getItemPerPage_lb : 10 ≤ (p.GetItemPerPage).1 := by
  rw [getItemPerPage_fst]
  split_ifs <;> omega

theorem getItemPerPage_ub : (p.GetItemPerPage).1 ≤ 100 := by
  rw [getItemPerPage_fst]
  split_ifs <;> omega

theorem getCurrentPage_fst :
    (p.GetCurrentPage).1 = if p.CurrentPage < 1 then 1 else p.CurrentPage := by
  simp only [PaginationMetadata.GetCurrentPage]
  split_ifs <;> simp_all

theorem getCurrentPage_snd :
    (p.GetCurrentPage).2 = { p with CurrentPage := (p.GetCurrentPage).1 } := by
  simp only [PaginationMetadata.GetCurrentPage]
  split_ifs <;> simp_all

theorem getCurrentPage_lb : 1 ≤ (p.GetCurrentPage).1 := by
  rw [getCurrentPage_fst]
  split_ifs <;> omega

end PaginationLemmas

/-- C1: for every metadata record with raw `ItemsPerPage` value `v`,
`GetItemPerPage` returns 10 if `v < 10`, 100 if `v > 100`, and `v`
otherwise, and stores the clamped result back into the `ItemsPerPage`
field, leaving every other field unchanged. -/
theorem c1_getItemPerPage_clamps (p : PaginationMetadata) :
    (p.GetItemPerPage).1 =
      (if p.ItemsPerPage < 10 then 10
       else if p.ItemsPerPage > 100 then 100
       else p.ItemsPerPage) ∧
    (p.GetItemPerPage).2 = { p with ItemsPerPage := (p.GetItemPerPage).1 } :=
  ⟨getItemPerPage_fst p, getItemPerPage_snd p⟩

/-- C2: for every metadata record with raw `CurrentPage` value `c`,
`GetCurrentPage` returns 1 if `c < 1` and `c` otherwise, and stores the
clamped result back into the `CurrentPage` field, leaving every other
field unchanged. -/
theorem c2_getCurrentPage_clamps (p : PaginationMetadata) :
    (p.GetCurrentPage).1 = (if p.CurrentPage < 1 then 1 else p.CurrentPage) ∧
    (p.GetCurrentPage).2 = { p with CurrentPage := (p.GetCurrentPage).1 } :=
  ⟨getCurrentPage_fst p, getCurrentPage_snd p⟩

theorem wrap64_eq_self (x : Int) (hlo : -2 ^ 63 ≤ x) (hhi : x < 2 ^ 63) :
    wrap64 x = x := by
  unfold wrap64
  omega

theorem getOffset_fst (p : PaginationMetadata) :
    (p.GetOffset).1 =
      wrap64 (((p.GetCurrentPage).1 - 1) * ((p.GetCurrentPage).2.GetItemPerPage).1) := by
  simp only [PaginationMetadata.GetOffset]

theorem getItemPerPage_fst_after_currentPage (p : PaginationMetadata) :
    ((p.GetCurrentPage).2.GetItemPerPage).1 = (p.GetItemPerPage).1 := by
  rw [getCurrentPage_snd, getItemPerPage_fst, getItemPerPage_fst]

/-- C3 counterexample: the source computes the offset with Go `int`
(64-bit) arithmetic, so `(2 ^ 62 - 1) * 100` overflows and `GetOffset`
returns the negative value `-100` on the metadata record with
`ItemsPerPage = 100` and `CurrentPage = 2 ^ 62`, refuting "the returned
integer is always non-negative". -/
theorem c3_getOffset_overflow_counterexample :
    ((⟨100, 0, 0, 2 ^ 62, 0⟩ : PaginationMetadata).GetOffset).1 = -100 ∧
    ¬ (0 ≤ ((⟨100, 0, 0, 2 ^ 62, 0⟩ : PaginationMetadata).GetOffset).1) := by
  constructor <;> decide

/-- C3 (amended): `GetOffset` returns the Go-`int`-wrapped value of
`(effectiveCurrentPage - 1) * effectiveItemsPerPage` and has no error
path; whenever the raw `CurrentPage` is in the 64-bit range and at most
`2 ^ 56` the product does not overflow, so the result equals the exact
product and is non-negative. -/
theorem c3_getOffset_spec (p : PaginationMetadata)
    (hlo : -2 ^ 63 ≤ p.CurrentPage) (hhi : p.CurrentPage ≤ 2 ^ 56) :
    (p.GetOffset).1 = ((p.GetCurrentPage).1 - 1) * (p.GetItemPerPage).1 ∧
    0 ≤ (p.GetOffset).1 := by
  have hc1 : 1 ≤ (p.GetCurrentPage).1 := getCurrentPage_lb p
  have hc2 : (p.GetCurrentPage).1 ≤ 2 ^ 56 := by
    rw [getCurrentPage_fst]
    split_ifs <;> omega
  have hi1 : 10 ≤ (p.GetItemPerPage).1 := getItemPerPage_lb p
  have hi2 : (p.GetItemPerPage).1 ≤ 100 := getItemPerPage_ub p
  have hprod0 : 0 ≤ ((p.GetCurrentPage).1 - 1) * (p.GetItemPerPage).1 :=
    mul_nonneg (by omega) (by omega)
  have hprodhi : ((p.GetCurrentPage).1 - 1) * (p.GetItemPerPage).1 ≤
      (2 ^ 56 - 1) * 100 :=
    mul_le_mul (by omega) (by omega) (by omega) (by omega)
  have heq : (p.GetOffset).1 = ((p.GetCurrentPage).1 - 1) * (p.GetItemPerPage).1 := by
    rw [getOffset_fst, getItemPerPage_fst_after_currentPage]
    exact wrap64_eq_self _ (by omega) (by omega)
  exact ⟨heq, heq ▸ hprod0⟩

/-- Witness for C3 (amended): concrete metadata with `ItemsPerPage = 20`
and `CurrentPage = 3` has offset `(3 - 1) * 20 = 40 ≥ 0`. -/
theorem c3_getOffset_spec_witness :
    ((⟨20, 0, 0, 3, 0⟩ : PaginationMetadata).GetOffset).1 = 40 ∧
    0 ≤ ((⟨20, 0, 0, 3, 0⟩ : PaginationMetadata).GetOffset).1 := by
  have h := c3_getOffset_spec ⟨20, 0, 0, 3, 0⟩ (by decide) (by decide)
  exact ⟨by rw [h.1]; decide, h.2⟩

/-- Round-half-to-even of the fraction `n / d` (`d > 0`) to a natural
number: the rounding step of binary64 arithmetic, on exact integer data. -/
def rheNat (n d : Nat) : Nat :=
  if 2 * (n % d) < d then n / d
  else if d < 2 * (n % d) then n / d + 1
  else if n / d % 2 = 0 then n / d else n / d + 1

/-- Largest `e` with `b * 2 ^ e ≤ a` (for `0 < b ≤ a`), by fuel-bounded
search; fuel 128 covers every quantity an int64 input produces here. -/
def downExp : Nat → Nat → Nat → Nat
  | 0, _, _ => 0
  | fuel + 1, a, b => if a < 2 * b then 0 else downExp fuel a (2 * b) + 1

/-- Smallest `k` with `b ≤ a * 2 ^ k` (for `0 < a < b`), by fuel-bounded
search. -/
def upExp : Nat → Nat → Nat → Nat
  | 0, _, _ => 0
  | fuel + 1, a, b => if b ≤ a then 0 else upExp fuel (2 * a) b + 1

/-- `⌊log2 (a / b)⌋` for positive naturals `a`, `b`. -/
def qlog2 (a b : Nat) : Int :=
  if b ≤ a then (downExp 128 a b : Int) else -(upExp 128 a b : Int)

/-- The integer value of `float64(n)` for a non-negative integer: below
`2 ^ 53` every integer is representable exactly; above, the nearest double
is `n` rounded half-to-even to a multiple of `2 ^ (e - 52)` (all doubles of
that magnitude are integers). -/
def floatOfNat (n : Nat) : Nat :=
  if n ≤ 2 ^ 53 then n
  else rheNat n (2 ^ (downExp 128 n 1 - 52)) * 2 ^ (downExp 128 n 1 - 52)

/-- `int(math.Ceil(A / B))` computed in binary64 for positive integers `A`,
`B` that are themselves float64 values: with `e = ⌊log2 (A / B)⌋`, the
correctly rounded quotient is `rhe(A / (B * 2 ^ (e - 52))) * 2 ^ (e - 52)`;
for `e ≥ 52` that double is an integer and `Ceil` returns it, otherwise
`Ceil` takes the exact ceiling of `m / 2 ^ (52 - e)` (an integer below
`2 ^ 53`, so the ceiling and the `int` conversion are exact). -/
def ceilFloatDiv (A B : Nat) : Nat :=
  if 52 ≤ qlog2 A B then
    rheNat A (B * 2 ^ (qlog2 A B - 52).toNat) * 2 ^ (qlog2 A B - 52).toNat
  else
    (rheNat (A * 2 ^ (52 - qlog2 A B).toNat) B + 2 ^ (52 - qlog2 A B).toNat - 1) /
      2 ^ (52 - qlog2 A B).toNat

/-- `int(math.Ceil(float64(a) / float64(b)))` as `Pagination` computes it:
both operands pass through float64 (`floatOfNat`), the quotient is
correctly rounded, and `Ceil`/`int` are exact on the result.  The count is
non-negative and the divisor is the clamped page size, so other sign
combinations do not arise (they get a defensive 0). -/
def goCeilDiv (a b : Int) : Int :=
  if 0 < a ∧ 0 < b then (ceilFloatDiv (floatOfNat a.toNat) (floatOfNat b.toNat) : Int)
  else 0

theorem downExp_spec (fuel a b : Nat) (hb : 0 < b) (hab : b ≤ a)
    (hfuel : a < b * 2 ^ fuel) :
    b * 2 ^ downExp fuel a b ≤ a ∧ a < 2 * (b * 2 ^ downExp fuel a b) := by
  induction fuel generalizing b with
  | zero =>
    exfalso
    simp only [pow_zero, Nat.mul_one] at hfuel
    omega
  | succ n ih =>
    rw [downExp]
    by_cases h : a < 2 * b
    · rw [if_pos h]
      simpa using ⟨hab, h⟩
    · rw [if_neg h]
      have hfuel2 : a < 2 * b * 2 ^ n := by
        have hstep : b * 2 ^ (n + 1) = 2 * b * 2 ^ n := by ring
        rw [hstep] at hfuel
        exact hfuel
      have hrec := ih (2 * b) (by omega) (by omega) hfuel2
      have hpow : b * 2 ^ (downExp n a (2 * b) + 1) =
          2 * b * 2 ^ downExp n a (2 * b) := by ring
      constructor
      · rw [hpow]
        exact hrec.1
      · rw [hpow]
        exact hrec.2

theorem upExp_eq_zero (fuel a b : Nat) (h : b ≤ a) : upExp fuel a b = 0 := by
  cases fuel with
  | zero => rfl
  | succ n => rw [upExp, if_pos h]

theorem upExp_spec (fuel a b : Nat) (ha : 0 < a) (hab : a < b)
    (hfuel : b ≤ a * 2 ^ fuel) :
    b ≤ a * 2 ^ upExp fuel a b ∧ a * 2 ^ upExp fuel a b < 2 * b := by
  induction fuel generalizing a with
  | zero =>
    exfalso
    simp only [pow_zero, Nat.mul_one] at hfuel
    omega
  | succ n ih =>
    rw [upExp, if_neg (by omega)]
    by_cases h : b ≤ 2 * a
    · rw [upExp_eq_zero n (2 * a) b h]
      have hpow : a * 2 ^ (0 + 1) = 2 * a := by ring
      rw [hpow]
      omega
    · have hfuel2 : b ≤ 2 * a * 2 ^ n := by
        have hstep : a * 2 ^ (n + 1) = 2 * a * 2 ^ n := by ring
        rw [hstep] at hfuel
        exact hfuel
      have hrec := ih (2 * a) (by omega) (by omega) hfuel2
      have hpow : a * 2 ^ (upExp n (2 * a) b + 1) =
          2 * a * 2 ^ upExp n (2 * a) b := by ring
      rw [hpow]
      exact hrec

theorem qlog2_spec (a b : Nat) (ha : 0 < a) (hb : 0 < b)
    (hfa : a < 2 ^ 127) (hfb : b < 2 ^ 127) :
    (2 : ℚ) ^ qlog2 a b ≤ (a : ℚ) / (b : ℚ) ∧
    (a : ℚ) / (b : ℚ) < 2 * 2 ^ qlog2 a b := by
  have hbQ : (0 : ℚ) < (b : ℚ) := by exact_mod_cast hb
  unfold qlog2
  by_cases hab : b ≤ a
  · rw [if_pos hab]
    have hfuel : a < b * 2 ^ 128 := by
      have h1 : (2 : Nat) ^ 127 ≤ b * 2 ^ 128 := by
        have h2 : 1 * 2 ^ 128 ≤ b * 2 ^ 128 := Nat.mul_le_mul_right _ hb
        omega
      omega
    have hspec := downExp_spec 128 a b hb hab hfuel
    rw [zpow_natCast]
    constructor
    · rw [le_div_iff₀ hbQ]
      have hcast : ((2 : ℚ) ^ downExp 128 a b) * b =
          ((b * 2 ^ downExp 128 a b : Nat) : ℚ) := by
        push_cast
        ring
      rw [hcast]
      exact_mod_cast hspec.1
    · rw [div_lt_iff₀ hbQ]
      have hcast : (2 : ℚ) * 2 ^ downExp 128 a b * b =
          ((2 * (b * 2 ^ downExp 128 a b) : Nat) : ℚ) := by
        push_cast
        ring
      rw [hcast]
      exact_mod_cast hspec.2
  · rw [if_neg hab]
    have hfuel : b ≤ a * 2 ^ 128 := by
      have h1 : (2 : Nat) ^ 127 ≤ a * 2 ^ 128 := by
        have h2 : 1 * 2 ^ 128 ≤ a * 2 ^ 128 := Nat.mul_le_mul_right _ ha
        omega
      omega
    have hspec := upExp_spec 128 a b ha (by omega) hfuel
    have hpow : (2 : ℚ) ^ (-(upExp 128 a b : Int)) = ((2 : ℚ) ^ upExp 128 a b)⁻¹ := by
      rw [zpow_neg, zpow_natCast]
    have hpQ : (0 : ℚ) < (2 : ℚ) ^ upExp 128 a b := by positivity
    rw [hpow]
    constructor
    · rw [inv_eq_one_div, div_le_div_iff₀ hpQ hbQ]
      have hcast : (1 : ℚ) * b = ((b : Nat) : ℚ) := by ring
      have hcast2 : (a : ℚ) * 2 ^ upExp 128 a b =
          ((a * 2 ^ upExp 128 a b : Nat) : ℚ) := by
        push_cast
        ring
      rw [hcast, hcast2]
      exact_mod_cast hspec.1
    · rw [div_lt_iff₀ hbQ, mul_comm 2 ((2 : ℚ) ^ upExp 128 a b)⁻¹, mul_assoc,
        inv_mul_eq_div, lt_div_iff₀ hpQ]
      have hcast : (a : ℚ) * 2 ^ upExp 128 a b =
          ((a * 2 ^ upExp 128 a b : Nat) : ℚ) := by
        push_cast
        ring
      have hcast2 : (2 : ℚ) * b = ((2 * b : Nat) : ℚ) := by
        push_cast
        ring
      rw [hcast, hcast2]
      exact_mod_cast hspec.2

theorem rheNat_err (n d : Nat) (hd : 0 < d) :
    |((rheNat n d : Nat) : ℚ) - (n : ℚ) / (d : ℚ)| ≤ 1 / 2 := by
  have hdQ : (0 : ℚ) < (d : ℚ) := by exact_mod_cast hd
  have hdm := Nat.div_add_mod n d
  have hmlt : n % d < d := Nat.mod_lt _ hd
  unfold rheNat
  set Q := n / d with hQdef
  set R := n % d with hRdef
  have hQ1 : (d : ℚ) * (Q : ℚ) + (R : ℚ) = (n : ℚ) := by exact_mod_cast hdm
  have hQR : ((R : Nat) : ℚ) < (d : ℚ) := by exact_mod_cast hmlt
  have hQR0 : (0 : ℚ) ≤ ((R : Nat) : ℚ) := by positivity
  have hnd : (n : ℚ) / d = (Q : ℚ) + (R : ℚ) / d := by
    field_simp
    linarith [hQ1]
  have hRd1 : ((R : Nat) : ℚ) / d < 1 := by
    rw [div_lt_one hdQ]
    exact hQR
  have hRd0 : (0 : ℚ) ≤ ((R : Nat) : ℚ) / d := by positivity
  rw [hnd, abs_le]
  split_ifs with h1 h2 h3
  · have hhalf : ((R : Nat) : ℚ) / d ≤ 1 / 2 := by
      rw [div_le_div_iff₀ hdQ (by norm_num)]
      have hc1 : ((R : Nat) : ℚ) * 2 = ((2 * R : Nat) : ℚ) := by push_cast; ring
      have hc2 : (1 : ℚ) * d = ((d : Nat) : ℚ) := by ring
      rw [hc1, hc2]
      exact_mod_cast Nat.le_of_lt h1
    constructor <;> linarith
  · have hhalf : (1 : ℚ) / 2 ≤ ((R : Nat) : ℚ) / d := by
      rw [div_le_div_iff₀ (by norm_num) hdQ]
      have hc1 : (1 : ℚ) * d = ((d : Nat) : ℚ) := by ring
      have hc2 : ((R : Nat) : ℚ) * 2 = ((2 * R : Nat) : ℚ) := by push_cast; ring
      rw [hc1, hc2]
      exact_mod_cast Nat.le_of_lt h2
    constructor <;> push_cast <;> linarith
  · have hhalf : ((R : Nat) : ℚ) / d = 1 / 2 := by
      rw [div_eq_div_iff (ne_of_gt hdQ) (by norm_num : (2 : ℚ) ≠ 0)]
      have heq : 2 * R = d := by omega
      have hc1 : ((R : Nat) : ℚ) * 2 = ((2 * R : Nat) : ℚ) := by push_cast; ring
      have hc2 : (1 : ℚ) * d = ((d : Nat) : ℚ) := by ring
      rw [hc1, hc2, heq]
    constructor <;> linarith
  · have hhalf : ((R : Nat) : ℚ) / d = 1 / 2 := by
      rw [div_eq_div_iff (ne_of_gt hdQ) (by norm_num : (2 : ℚ) ≠ 0)]
      have heq : 2 * R = d := by omega
      have hc1 : ((R : Nat) : ℚ) * 2 = ((2 * R : Nat) : ℚ) := by push_cast; ring
      have hc2 : (1 : ℚ) * d = ((d : Nat) : ℚ) := by ring
      rw [hc1, hc2, heq]
    constructor <;> push_cast <;> linarith

theorem rheNat_exact (n d : Nat) (hd : 0 < d) (hdvd : d ∣ n) :
    rheNat n d = n / d := by
  unfold rheNat
  rw [Nat.mod_eq_zero_of_dvd hdvd]
  simp [hd]

/-- A gorm database handle as seen by `Pagination`/`FindAll`: the result of
the count query issued on the root handle, the full (unpaginated) result
set of the query, and an injected failure for the paginated fetch. -/
structure GormDB (α : Type) where
  countResult : Except DBErr Int
  rows : List α
  findFailure : Option DBErr

/-- Immediate body of `Pagination(meta, db)`: runs `db.Count(&totalItems)`
— the `*gorm.DB` returned by `Count` (which carries the query error) is
discarded, and on failure the `totalItems` variable keeps its zero value —
then stores `TotalItem`, clamps `ItemsPerPage` via `GetItemPerPage`, and
stores `TotalPage = int(math.Ceil(float64(totalItems) / float64(ipp)))`,
the binary64 computation being modelled bit-exactly by `goCeilDiv`. -/
def paginationSetup {α : Type} (meta : PaginationMetadata) (db : GormDB α) :
    PaginationMetadata :=
  let totalItems : Int :=
    match db.countResult with
    | .ok n => n
    | .error _ => 0
  let meta1 := { meta with TotalItem := totalItems }
  let i := meta1.GetItemPerPage
  { i.2 with TotalPage := goCeilDiv totalItems i.1 }

/-- The scope closure returned by `Pagination`, applied at query time:
`db.Offset(meta.GetOffset()).Limit(meta.ItemsPerPage)`.  Returns the
mutated metadata, the offset, and the limit. -/
def paginationScope (meta : PaginationMetadata) :
    PaginationMetadata × Int × Int :=
  let o := meta.GetOffset
  (o.2, o.1, o.2.ItemsPerPage)

/-- `gormRepository.FindAll`: builds the pagination scope (running the
count immediately), executes the bounded fetch (offset/limit modelled as
drop/take on the full result set), and on success stores the number of
returned records into `ItemCount`.  Returns the fetched page together with
the final metadata, or the fetch error. -/
def FindAll {α : Type} (db : GormDB α) (meta : PaginationMetadata) :
    Except DBErr (List α × PaginationMetadata) :=
  let m1 := paginationSetup meta db
  let s := paginationScope m1
  match db.findFailure with
  | some e => .error e
  | none =>
    let page := (db.rows.drop s.2.1.toNat).take s.2.2.toNat
    .ok (page, { s.1 with ItemCount := (page.length : Int) })

theorem natCeilDiv_eq_ceil (m s : Nat) (hs : 0 < s) :
    (((m + s - 1) / s : Nat) : Int) = ⌈(m : ℚ) / (s : ℚ)⌉ := by
  have hsQ : (0 : ℚ) < (s : ℚ) := by exact_mod_cast hs
  cases m with
  | zero =>
    have h1 : (0 + s - 1) / s = 0 := Nat.div_eq_of_lt (by omega)
    rw [h1]
    norm_num
  | succ m0 =>
    have hdiv : (m0 + 1 + s - 1) / s = m0 / s + 1 := by
      rw [show m0 + 1 + s - 1 = m0 + s from by omega, Nat.add_div_right _ hs]
    rw [hdiv]
    have h1 := Nat.div_add_mod m0 s
    have h2 : m0 % s < s := Nat.mod_lt _ hs
    set Q := m0 / s with hQdef
    set R := m0 % s with hRdef
    have hQ1 : (s : ℚ) * (Q : ℚ) + (R : ℚ) = (m0 : ℚ) := by exact_mod_cast h1
    have hQ2 : ((R : Nat) : ℚ) < (s : ℚ) := by exact_mod_cast h2
    have hQ0 : (0 : ℚ) ≤ ((R : Nat) : ℚ) := by positivity
    symm
    rw [Int.ceil_eq_iff]
    constructor
    · have hc : (((Q + 1 : Nat) : Int) : ℚ) - 1 = (Q : ℚ) := by push_cast; ring
      rw [hc, lt_div_iff₀ hsQ]
      have hexp : (Q : ℚ) * s = (s : ℚ) * Q := by ring
      rw [hexp]
      push_cast
      linarith [hQ1, hQ0]
    · have hc : (((Q + 1 : Nat) : Int) : ℚ) = (Q : ℚ) + 1 := by push_cast; ring
      rw [div_le_iff₀ hsQ, hc]
      have hexp : ((Q : ℚ) + 1) * s = (s : ℚ) * Q + s := by ring
      rw [hexp]
      have hQ2' : ((R : Nat) : ℚ) + 1 ≤ (s : ℚ) := by
        exact_mod_cast Nat.succ_le_of_lt h2
      push_cast
      linarith [hQ1, hQ2']

theorem ceilFloatDiv_eq_ceil (A B : Nat) (hA : 0 < A) (hA50 : A ≤ 2 ^ 50)
    (hB1 : 10 ≤ B) (hB2 : B ≤ 100) :
    ((ceilFloatDiv A B : Nat) : Int) = ⌈(A : ℚ) / (B : ℚ)⌉ := by
  have hB0 : 0 < B := by omega
  have hAQ : (0 : ℚ) < (A : ℚ) := by exact_mod_cast hA
  have hBQ : (0 : ℚ) < (B : ℚ) := by exact_mod_cast hB0
  have hlog := qlog2_spec A B hA hB0 (by omega) (by omega)
  have hqlt : (A : ℚ) / B < 2 ^ (47 : Nat) := by
    rw [div_lt_iff₀ hBQ]
    have h10 : ((10 : Nat) : ℚ) ≤ (B : ℚ) := by exact_mod_cast hB1
    calc (A : ℚ) ≤ ((2 ^ 50 : Nat) : ℚ) := by exact_mod_cast hA50
    _ < ((2 : ℚ) ^ (47 : Nat)) * 10 := by push_cast; norm_num
    _ ≤ 2 ^ (47 : Nat) * B := by push_cast at h10 ⊢; nlinarith
  have he46 : qlog2 A B ≤ 46 := by
    by_contra hcon
    push_neg at hcon
    have h47 : (47 : Int) ≤ qlog2 A B := by omega
    have hmono : ((2 : ℚ) ^ (47 : Int)) ≤ 2 ^ qlog2 A B :=
      zpow_le_zpow_right₀ (by norm_num) h47
    have hz : ((2 : ℚ) ^ (47 : Int)) = 2 ^ (47 : Nat) := by
      rw [show (47 : Int) = ((47 : Nat) : Int) from rfl, zpow_natCast]
    nlinarith [hlog.1]
  have hbranch : ¬ (52 ≤ qlog2 A B) := by omega
  unfold ceilFloatDiv
  rw [if_neg hbranch]
  have ht6 : 6 ≤ (52 - qlog2 A B).toNat := by omega
  have hs0 : 0 < 2 ^ (52 - qlog2 A B).toNat := Nat.pos_pow_of_pos _ (by norm_num)
  have hs64 : 64 ≤ 2 ^ (52 - qlog2 A B).toNat := by
    calc (64 : Nat) = 2 ^ 6 := by norm_num
    _ ≤ 2 ^ (52 - qlog2 A B).toNat := Nat.pow_le_pow_right (by norm_num) ht6
  set s : Nat := 2 ^ (52 - qlog2 A B).toNat with hsdef
  set m : Nat := rheNat (A * s) B with hmdef
  rw [natCeilDiv_eq_ceil m s hs0]
  have hsQ : (0 : ℚ) < (s : ℚ) := by exact_mod_cast hs0
  have herr := rheNat_err (A * s) B hB0
  have hkey : |(m : ℚ) / s - (A : ℚ) / B| ≤ 1 / (2 * s) := by
    have hAs : ((A * s : Nat) : ℚ) = (A : ℚ) * s := by push_cast; ring
    rw [hAs] at herr
    have h1 : (m : ℚ) / s - (A : ℚ) / B = ((m : ℚ) - (A : ℚ) * s / B) / s := by
      field_simp
      ring
    rw [h1, abs_div, abs_of_pos hsQ, show (1 : ℚ) / (2 * s) = (1 / 2) / s by ring]
    gcongr
  by_cases hdvd : B ∣ A
  · obtain ⟨c, hc⟩ := hdvd
    have hc0 : 0 < c := by
      rcases Nat.eq_zero_or_pos c with h | h
      · subst h
        rw [Nat.mul_zero] at hc
        omega
      · exact h
    have hqc : (A : ℚ) / B = (c : ℚ) := by
      rw [hc]
      push_cast
      field_simp
    have hms : m = c * s := by
      rw [hmdef, hc, show B * c * s = B * (c * s) from by ring,
        rheNat_exact _ _ hB0 ⟨c * s, rfl⟩, Nat.mul_div_cancel_left _ hB0]
    rw [hms, hqc]
    have hcs : ((c * s : Nat) : ℚ) / s = (c : ℚ) := by
      push_cast
      field_simp
    rw [hcs]
  · have hkup : (A : ℚ) / B ≤ (⌈(A : ℚ) / B⌉ : ℚ) := Int.le_ceil _
    have hklow : ((⌈(A : ℚ) / B⌉ : Int) : ℚ) - 1 < (A : ℚ) / B := by
      have := Int.ceil_lt_add_one ((A : ℚ) / B)
      push_cast at this ⊢
      linarith
    have hk1 : 1 ≤ ⌈(A : ℚ) / B⌉ := Int.ceil_pos.mpr (by positivity)
    have hABk : (A : Int) ≤ ⌈(A : ℚ) / B⌉ * B - 1 := by
      have h1 : (A : ℚ) ≤ (⌈(A : ℚ) / B⌉ : ℚ) * B := by
        rw [div_le_iff₀ hBQ] at hkup
        exact hkup
      have h2 : (A : Int) ≤ ⌈(A : ℚ) / B⌉ * B := by exact_mod_cast h1
      rcases lt_or_eq_of_le h2 with h | h
      · omega
      · exfalso
        apply hdvd
        refine ⟨⌈(A : ℚ) / B⌉.toNat, ?_⟩
        have hknn : ((⌈(A : ℚ) / B⌉.toNat : Nat) : Int) = ⌈(A : ℚ) / B⌉ :=
          Int.toNat_of_nonneg (by omega)
        have hgoal : (A : Int) = (B : Int) * ((⌈(A : ℚ) / B⌉.toNat : Nat) : Int) := by
          rw [hknn, mul_comm]
          exact h
        exact_mod_cast hgoal
    have hBlow : (B : Int) * (⌈(A : ℚ) / B⌉ - 1) + 1 ≤ (A : Int) := by
      have h2 : (((⌈(A : ℚ) / B⌉ - 1 : Int)) : ℚ) < (A : ℚ) / B := by
        push_cast
        linarith [hklow]
      rw [lt_div_iff₀ hBQ] at h2
      have h3 : (⌈(A : ℚ) / B⌉ - 1) * (B : Int) < A := by exact_mod_cast h2
      have h4 : (B : Int) * (⌈(A : ℚ) / B⌉ - 1) < A := by
        rw [mul_comm]
        exact h3
      omega
    have hq_up : (A : ℚ) / B ≤ ((⌈(A : ℚ) / B⌉ : Int) : ℚ) - 1 / B := by
      rw [div_le_iff₀ hBQ, sub_mul, div_mul_cancel₀ _ (ne_of_gt hBQ)]
      calc (A : ℚ) = ((A : Int) : ℚ) := by push_cast; ring
      _ ≤ ((⌈(A : ℚ) / B⌉ * B - 1 : Int) : ℚ) := by exact_mod_cast hABk
      _ = (⌈(A : ℚ) / B⌉ : ℚ) * B - 1 := by push_cast; ring
    have hq_low : ((⌈(A : ℚ) / B⌉ : Int) : ℚ) - 1 + 1 / B ≤ (A : ℚ) / B := by
      rw [le_div_iff₀ hBQ, add_mul, sub_mul, div_mul_cancel₀ _ (ne_of_gt hBQ)]
      calc ((⌈(A : ℚ) / B⌉ : Int) : ℚ) * B - 1 * B + 1
          = (((B : Int) * (⌈(A : ℚ) / B⌉ - 1) + 1 : Int) : ℚ) := by push_cast; ring
      _ ≤ ((A : Int) : ℚ) := by exact_mod_cast hBlow
      _ = (A : ℚ) := by push_cast; ring
    have h1B : (1 : ℚ) / 100 ≤ 1 / B := by
      apply one_div_le_one_div_of_le hBQ
      exact_mod_cast hB2
    have hsmall : (1 : ℚ) / (2 * s) ≤ 1 / 128 := by
      apply one_div_le_one_div_of_le (by norm_num)
      have : (64 : ℚ) ≤ (s : ℚ) := by exact_mod_cast hs64
      linarith
    have habs := abs_le.mp hkey
    rw [Int.ceil_eq_iff]
    constructor
    · linarith [habs.1, habs.2]
    · linarith [habs.1, habs.2]

theorem goCeilDiv_eq_ceil (a b : Int) (h0 : 0 ≤ a) (ha : a ≤ 2 ^ 50)
    (hb1 : 10 ≤ b) (hb2 : b ≤ 100) :
    goCeilDiv a b = ⌈(a : ℚ) / (b : ℚ)⌉ := by
  have hcastA : ((a.toNat : Nat) : ℚ) = (a : ℚ) := by
    exact_mod_cast Int.toNat_of_nonneg h0
  have hcastB : ((b.toNat : Nat) : ℚ) = (b : ℚ) := by
    exact_mod_cast Int.toNat_of_nonneg (by omega : (0 : Int) ≤ b)
  rcases eq_or_lt_of_le h0 with h | hpos
  · unfold goCeilDiv
    rw [if_neg (by omega), ← h]
    norm_num
  · unfold goCeilDiv
    rw [if_pos ⟨hpos, by omega⟩]
    have hfa : floatOfNat a.toNat = a.toNat := by
      unfold floatOfNat
      rw [if_pos (by omega)]
    have hfb : floatOfNat b.toNat = b.toNat := by
      unfold floatOfNat
      rw [if_pos (by omega)]
    rw [hfa, hfb,
      ceilFloatDiv_eq_ceil a.toNat b.toNat (by omega) (by omega) (by omega) (by omega),
      hcastA, hcastB]

/-- A database handle whose count query returns `2 ^ 53 + 1`. -/
def dbBigCount : GormDB Int :=
  { countResult := .ok (2 ^ 53 + 1)
    rows := []
    findFailure := none }

/-- C4 counterexample: with `totalItems = 2 ^ 53 + 1` and `itemsPerPage =
16`, float64 rounds the count to `2 ^ 53` (half-to-even), so the stored
`TotalPage` is `2 ^ 49` while the exact ceiling of `TotalItem / 16` is
`2 ^ 49 + 1` — `TotalPage` is not the ceiling of the quotient. -/
theorem c4_totalPage_float_counterexample :
    (paginationSetup ⟨16, 0, 0, 1, 0⟩ dbBigCount).TotalItem = 2 ^ 53 + 1 ∧
    (paginationSetup ⟨16, 0, 0, 1, 0⟩ dbBigCount).TotalPage = 2 ^ 49 ∧
    ⌈((2 ^ 53 + 1 : Int) : ℚ) / ((16 : Int) : ℚ)⌉ = 2 ^ 49 + 1 := by
  refine ⟨by decide, by decide, ?_⟩
  rw [Int.ceil_eq_iff]
  norm_num

/-- C4 (amended): after the count query of `Pagination` populates
`TotalItem`, the stored `TotalPage` equals the ceiling of `TotalItem`
divided by the effective (clamped) items-per-page whenever the count is at
most `2 ^ 50` (a range on which the float64 computation the source uses is
exact); beyond that, float64 rounding can lose the exact ceiling. -/
theorem c4_pagination_totalPage {α : Type} (meta : PaginationMetadata)
    (db : GormDB α) (totalItems : Int)
    (hcount : db.countResult = .ok totalItems)
    (h0 : 0 ≤ totalItems) (hrange : totalItems ≤ 2 ^ 50) :
    (paginationSetup meta db).TotalItem = totalItems ∧
    (paginationSetup meta db).TotalPage =
      ⌈(totalItems : ℚ) / ((meta.GetItemPerPage).1 : ℚ)⌉ := by
  have hipp : (({ meta with TotalItem := totalItems } :
      PaginationMetadata).GetItemPerPage).1 = (meta.GetItemPerPage).1 := by
    rw [getItemPerPage_fst, getItemPerPage_fst]
  constructor
  · simp [paginationSetup, hcount, getItemPerPage_snd]
  · simp only [paginationSetup, hcount]
    rw [hipp, goCeilDiv_eq_ceil _ _ h0 hrange (getItemPerPage_lb meta)
      (getItemPerPage_ub meta)]

/-- Witness for C4 (amended): a count of 47 with raw `ItemsPerPage = 10`
yields `TotalItem = 47` and `TotalPage = 5` (the spec's worked example). -/
theorem c4_pagination_totalPage_witness :
    (paginationSetup ⟨10, 0, 0, 1, 0⟩
      ({ countResult := .ok 47, rows := ([] : List Int), findFailure := none })).TotalItem = 47 ∧
    (paginationSetup ⟨10, 0, 0, 1, 0⟩
      ({ countResult := .ok 47, rows := ([] : List Int), findFailure := none })).TotalPage = 5 := by
  have h := c4_pagination_totalPage ⟨10, 0, 0, 1, 0⟩
    ({ countResult := .ok 47, rows := ([] : List Int), findFailure := none }) 47 rfl
    (by decide) (by decide)
  refine ⟨h.1, ?_⟩
  rw [h.2]
  rw [show ((((⟨10, 0, 0, 1, 0⟩ : PaginationMetadata).GetItemPerPage).1 : Int) : ℚ)
      = (10 : ℚ) by norm_num [PaginationMetadata.GetItemPerPage]]
  rw [Int.ceil_eq_iff]
  norm_num

/-- A database handle whose count query fails while the fetch works: used
to exhibit that `Pagination` discards the count error. -/
def dbCountFails : GormDB Int :=
  { countResult := .error (DBErr.queryError "count failed")
    rows := [1, 2, 3]
    findFailure := none }

/-- C5 counterexample: the count query fails, yet `FindAll` succeeds and
returns the page (with `TotalItem = 0`), refuting "returns an error
whenever the underlying count query or the fetch fails": `Pagination`
drops the `*gorm.DB` returned by `db.Count`, so the count error never
reaches the caller. -/
theorem c5_findAll_countError_counterexample :
    dbCountFails.countResult = .error (DBErr.queryError "count failed") ∧
    FindAll dbCountFails ⟨10, 0, 0, 1, 0⟩ = .ok ([1, 2, 3], ⟨10, 3, 0, 1, 0⟩) :=
  ⟨rfl, rfl⟩

/-- C5 (amended): `FindAll` runs the count (through `Pagination`) and then
the bounded offset/limit fetch; it returns an error exactly when the fetch
fails (a count-query failure is silently ignored); on success the returned
slice is exactly the requested page — never a partial one — and
`ItemCount` is set to its length. -/
theorem c5_findAll_spec {α : Type} (db : GormDB α) (meta : PaginationMetadata) :
    (∀ e, FindAll db meta = .error e ↔ db.findFailure = some e) ∧
    (∀ page meta2, FindAll db meta = .ok (page, meta2) →
      page = (db.rows.drop ((paginationScope (paginationSetup meta db)).2.1).toNat).take
               ((paginationScope (paginationSetup meta db)).2.2).toNat ∧
      meta2 = { (paginationScope (paginationSetup meta db)).1 with
                  ItemCount := (page.length : Int) }) := by
  cases hf : db.findFailure with
  | some e0 =>
    refine ⟨fun e => ?_, fun page meta2 h => ?_⟩
    · simp [FindAll, hf]
    · simp [FindAll, hf] at h
  | none =>
    refine ⟨fun e => ?_, fun page meta2 h => ?_⟩
    · simp [FindAll, hf]
    · simp only [FindAll, hf, Except.ok.injEq, Prod.mk.injEq] at h
      obtain ⟨h1, h2⟩ := h
      subst h1
      exact ⟨rfl, h2.symm⟩

/-- A database handle whose paginated fetch fails. -/
def dbFetchFails : GormDB Int :=
  { countResult := .ok 3
    rows := [1, 2, 3]
    findFailure := some (DBErr.queryError "boom") }

/-- Witness for C5 (amended): with an injected fetch failure `FindAll`
returns exactly that error. -/
theorem c5_findAll_spec_witness :
    FindAll dbFetchFails ⟨10, 0, 0, 1, 0⟩ = .error (DBErr.queryError "boom") :=
  ((c5_findAll_spec dbFetchFails ⟨10, 0, 0, 1, 0⟩).1
    (DBErr.queryError "boom")).mpr rfl

/-- Association-table view of an entity's table: each row pairs the row's
identifier with the entity payload. -/
def Table (ε : Type) := List (String × ε)

/-- `First(&entity, "id = ?", id)`: the first row whose identifier matches,
`gorm.ErrRecordNotFound`when there is none. -/
def firstById {ε : Type} (t : Table ε) (id : String) : Option (String × ε) :=
  t.find? (fun r => r.1 == id)

/-- `Updates(&entity)` restricted to the rows selected by identifier: every
matching row is patched by the field-wise update `u`; matching zero rows is
not an error. -/
def updatesWhereId {ε : Type} (t : Table ε) (id : String) (u : ε → ε) : Table ε :=
  t.map (fun r => if r.1 == id then (r.1, u r.2) else r)

/-- Success of `strconv.Atoi` on the identifier string: a (possibly empty
sign followed by) digits-only string.  gorm's condition builder,
`Statement.BuildCondition`, treats a string query on which `Atoi` succeeds
as a primary-key equality; any other bare string is emitted as raw SQL.
Identifiers never carry a sign or exceed int range, so digits-only is the
faithful test here. -/
def atoiOk (s : String) : Bool :=
  !s.data.isEmpty && s.data.all Char.isDigit

/-- `gormRepository.Update` / `UpdateByIDWithResult`: the chain
`Where(id, "id = ?", id).Updates(&entity).First(&entity, "id = ?", id)`.
The `Where` arguments are swapped in the source: the raw identifier is
passed as the query string and `"id = ?"` as a bind argument.  Per gorm's
condition builder, a numeric query string happens to become a primary-key
equality (selection by identifier, stray arguments dropped): then the
update patches all matching rows — zero matches is not an error — and the
final `First` re-reads the record, yielding `recordNotFound` exactly when
no row with the identifier exists.  Any other identifier — in particular a
UUID — is emitted as raw SQL that the engine rejects, so the update step
fails and the chain's error reaches the caller regardless of whether the
record exists. -/
def Update {ε : Type} (t : Table ε) (id : String) (u : ε → ε) :
    Except DBErr ((String × ε) × Table ε) :=
  if atoiOk id then
    match firstById (updatesWhereId t id u) id with
    | none => .error .recordNotFound
    | some r => .ok (r, updatesWhereId t id u)
  else .error (.queryError "invalid WHERE condition")

theorem firstById_updatesWhereId {ε : Type} (t : Table ε) (id : String) (u : ε → ε) :
    firstById (updatesWhereId t id u) id =
      (firstById t id).map (fun r => (r.1, u r.2)) := by
  unfold firstById updatesWhereId
  rw [List.find?_map]
  have hcomp : ((fun r : String × ε => r.1 == id) ∘
      fun r : String × ε => if r.1 == id then (r.1, u r.2) else r) =
      fun r : String × ε => r.1 == id := by
    funext r
    by_cases h : r.1 = id
    · subst h
      simp
    · simp [h]
  rw [hcomp]
  cases hf : t.find? (fun r => r.1 == id) with
  | none => rfl
  | some r =>
    have hp := List.find?_some hf
    simp only [beq_iff_eq] at hp
    simp [hp]

theorem updatesWhereId_no_match {ε : Type} (t : Table ε) (id : String) (u : ε → ε)
    (h : firstById t id = none) : updatesWhereId t id u = t := by
  unfold firstById at h
  rw [List.find?_eq_none] at h
  unfold updatesWhereId
  induction t with
  | nil => rfl
  | cons a t ih =>
    have ha := h a (by simp)
    simp only [List.map_cons]
    rw [if_neg ha]
    exact congrArg (a :: ·) (ih (fun x hx => h x (by simp [hx])))

/-- On a purely numeric identifier — the accidental primary-key special
case of gorm's condition builder — `Update` does behave as documented: the
update step patches the selected rows (zero matches is no error and leaves
the table unchanged) and the re-read returns `recordNotFound` exactly when
the identifier is absent. -/
theorem update_numericId_spec {ε : Type} (t : Table ε) (id : String)
    (u : ε → ε) (hnum : atoiOk id = true) :
    (Update t id u = .error DBErr.recordNotFound ↔ firstById t id = none) ∧
    (firstById t id = none → updatesWhereId t id u = t) ∧
    (∀ r t2, Update t id u = .ok (r, t2) →
      t2 = updatesWhereId t id u ∧ firstById t2 id = some r) := by
  refine ⟨?_, fun h => updatesWhereId_no_match t id u h, ?_⟩
  · unfold Update
    rw [if_pos hnum, firstById_updatesWhereId]
    cases h : firstById t id with
    | none => simp [h]
    | some r0 => simp [h]
  · intro r t2 h
    unfold Update at h
    rw [if_pos hnum, firstById_updatesWhereId] at h
    cases hfb : firstById t id with
    | none => rw [hfb] at h; simp at h
    | some r0 =>
      rw [hfb] at h
      simp only [Option.map_some', Except.ok.injEq, Prod.mk.injEq] at h
      obtain ⟨hr, ht⟩ := h
      subst ht
      refine ⟨rfl, ?_⟩
      rw [firstById_updatesWhereId, hfb]
      simp [hr]

/-- C6: the claim fails on the code.  `Base` identifiers are UUIDs, and on
a non-numeric identifier the swapped `Where(id, "id = ?", id)` never
selects rows by identifier: gorm emits the raw identifier as SQL, the
engine rejects it, and `Update` returns a query error even though a record
with that exact identifier is present in the table — neither success nor a
re-read-driven `recordNotFound`, contradicting "returns a record-not-found
error exactly when no record with that identifier exists at re-read
time". -/
theorem c6_update_where_swap_bug :
    firstById [("3f2a-b", (0 : Int))] "3f2a-b" = some ("3f2a-b", 0) ∧
    Update [("3f2a-b", (0 : Int))] "3f2a-b" (fun x => x + 1) =
      .error (DBErr.queryError "invalid WHERE condition") := by
  constructor
  · rfl
  · unfold Update
    rw [if_neg (by decide)]

/-- Result of one store operation run inside the transaction: success, a
returned error, or a Go panic (the panic payload is modelled as a `DBErr`,
which is what re-panicking passes through unchanged). -/
inductive FnRes (σ : Type)
  | ok (s : σ)
  | err (e : DBErr) (s : σ)
  | panics (v : DBErr)

/-- An open gorm transaction: the committed state at `Begin`, the pending
state, and whether `Commit`/`Rollback` already finished it. -/
structure Tx (σ : Type) where
  base : σ
  cur : σ
  finished : Bool

/-- `tx.Rollback()`: discards the pending state and finishes the
transaction; on an already-finished transaction gorm reports an error that
the source discards, so that case is a no-op. -/
def rollbackTx {σ : Type} (tx : Tx σ) : Tx σ :=
  if tx.finished then tx else { tx with cur := tx.base, finished := true }

/-- What the caller of `WithTransaction` observes, paired with the durable
database state afterwards: a nil return, a returned error, or a panic. -/
inductive TxOutcome (σ : Type)
  | ok (db : σ)
  | err (e : DBErr) (db : σ)
  | panicked (v : DBErr) (db : σ)

/-- Result of the `for _, fn := range fns` loop in `WithTransaction`. -/
inductive LoopRes (σ : Type)
  | completed (tx : Tx σ)
  | returned (e : DBErr) (tx : Tx σ)
  | panicked (v : DBErr) (tx : Tx σ)

/-- The loop body: a returned error triggers `tx.Rollback()` followed by
`return err`; a panic unwinds at once. -/
def txLoop {σ : Type} (fns : List (σ → FnRes σ)) (tx : Tx σ) : LoopRes σ :=
  match fns with
  | [] => .completed tx
  | fn :: rest =>
    match fn tx.cur with
    | .ok s => txLoop rest { tx with cur := s }
    | .err e s => .returned e (rollbackTx { tx with cur := s })
    | .panics v => .panicked v tx

/-- The deferred handler of `WithTransaction`: a recovered panic is rolled
back and re-raised; otherwise the handler runs `tx.Commit()`, and a commit
failure — in particular `sql.ErrTxDone` when the loop already rolled the
transaction back — makes it roll back again (a no-op) and panic with that
commit error.  A commit on a still-active transaction is assumed to
succeed (backend commit failures are an external concern). -/
def txDefer {σ : Type} (res : LoopRes σ) : TxOutcome σ :=
  match res with
  | .panicked v tx => .panicked v (rollbackTx tx).base
  | .returned e tx =>
      if tx.finished then .panicked DBErr.txDone (rollbackTx tx).base
      else .err e tx.cur
  | .completed tx =>
      if tx.finished then .panicked DBErr.txDone (rollbackTx tx).base
      else .ok tx.cur

/-- `gormRepository.WithTransaction`: `Begin`, run the operations, and let
the deferred handler settle commit/rollback. -/
def WithTransaction {σ : Type} (db : σ) (fns : List (σ → FnRes σ)) :
    TxOutcome σ :=
  txDefer (txLoop fns { base := db, cur := db, finished := false })

/-- A panicking operation is rolled back and its panic re-raised — this
part of the transaction contract does hold. -/
theorem withTransaction_panic_path {σ : Type} (db : σ) (v : DBErr) :
    WithTransaction db [fun _ => FnRes.panics v] = TxOutcome.panicked v db :=
  rfl

/-- A sequence of successful operations is committed. -/
theorem withTransaction_success_path {σ : Type} (db : σ) (f g : σ → σ) :
    WithTransaction db [fun s => FnRes.ok (f s), fun s => FnRes.ok (g s)] =
      TxOutcome.ok (g (f db)) :=
  rfl

/-- C7: at the failing input — a single operation that returns an error —
`WithTransaction` rolls the transaction back, but the deferred handler then
runs `tx.Commit()` on the finished transaction; that commit fails
(`sql.ErrTxDone`), so the handler panics with the commit error.  The caller
observes a panic carrying `txDone` instead of the operation's own error,
contradicting the function's documented contract of returning that error
(the durable state is at least the rolled-back original). -/
theorem c7_withTransaction_error_path_panics :
    WithTransaction (0 : Int)
        [fun s => FnRes.err (DBErr.queryError "op failed") s] =
      TxOutcome.panicked DBErr.txDone 0 :=
  rfl

/-- Redis commands issued by the hash-saving operations. -/
inductive RedisCmd
  | hset (key field value : String)
  | hsetAll (key : String) (kvs : List (String × String))
  | expireCmd (key : String) (ttl : Int)
  deriving DecidableEq

/-- Command trace of `redisRepository.SaveHashCache` (guarded variant):
`HSET` followed by `EXPIRE` only when `ttl > 0`. -/
def saveHashCacheCmds (key field value : String) (ttl : Int) : List RedisCmd :=
  RedisCmd.hset key field value ::
    (if ttl > 0 then [RedisCmd.expireCmd key ttl] else [])

/-- Command trace of `redisRepository.SaveAllHashCache` (guarded variant). -/
def saveAllHashCacheCmds (key : String) (kvs : List (String × String))
    (ttl : Int) : List RedisCmd :=
  RedisCmd.hsetAll key kvs ::
    (if ttl > 0 then [RedisCmd.expireCmd key ttl] else [])

/-- Command trace of the `SaveHashCache` variant in `src/redis.go`: `HSET`
followed by an unconditional `EXPIRE`. -/
def saveHashCacheCmdsRedisGo (key field value : String) (ttl : Int) :
    List RedisCmd :=
  [RedisCmd.hset key field value, RedisCmd.expireCmd key ttl]

/-- State of the observed hash key on the Redis server: its fields and its
expiration (`none` = no expiration set / key absent when fields empty). -/
structure RedisKeyState where
  fields : List (String × String)
  expiry : Option Int
  deriving DecidableEq

/-- Field upsert used by `HSET`. -/
def hsetField (fs : List (String × String)) (field value : String) :
    List (String × String) :=
  if fs.any (fun kv => kv.1 == field) then
    fs.map (fun kv => if kv.1 == field then (field, value) else kv)
  else fs ++ [(field, value)]

/-- Redis semantics of the issued commands on the observed key: `HSET`
upserts fields and never touches the expiration; `EXPIRE` with a positive
ttl sets/refreshes the expiration, while `EXPIRE` with a non-positive ttl
deletes the key outright. -/
def execCmd (s : RedisKeyState) (c : RedisCmd) : RedisKeyState :=
  match c with
  | .hset _ f v => { s with fields := hsetField s.fields f v }
  | .hsetAll _ kvs =>
      { s with fields := kvs.foldl (fun fs kv => hsetField fs kv.1 kv.2) s.fields }
  | .expireCmd _ ttl =>
      if ttl > 0 then { s with expiry := some ttl }
      else { fields := [], expiry := none }

def execCmds (s : RedisKeyState) (cs : List RedisCmd) : RedisKeyState :=
  cs.foldl execCmd s

/-- C8 counterexample: the `SaveHashCache` variant in `src/redis.go` issues
the `EXPIRE` command even for `ttl = 0`, and on a key whose expiration was
50 the expiration state is not left untouched — the key is removed. -/
theorem c8_saveHashCache_unconditional_expire_counterexample :
    RedisCmd.expireCmd "k" 0 ∈ saveHashCacheCmdsRedisGo "k" "f" "v" 0 ∧
    (execCmds ⟨[("f", "old")], some 50⟩
        (saveHashCacheCmdsRedisGo "k" "f" "v" 0)).expiry = none := by
  constructor <;> decide

/-- C8 (amended): the guarded `SaveHashCache`/`SaveAllHashCache` set the
hash fields and then, when `ttl > 0`, set/refresh the expiration of the
whole key; when `ttl ≤ 0` no `EXPIRE` command is issued and the key's
expiration state is untouched.  (The `src/redis.go` variant instead issues
`EXPIRE` unconditionally — see the counterexample.) -/
theorem c8_saveHashCache_ttl_spec (key field value : String)
    (kvs : List (String × String)) (ttl : Int) (s : RedisKeyState) :
    (ttl > 0 →
      (execCmds s (saveHashCacheCmds key field value ttl)).expiry = some ttl ∧
      (execCmds s (saveAllHashCacheCmds key kvs ttl)).expiry = some ttl) ∧
    (ttl ≤ 0 →
      saveHashCacheCmds key field value ttl = [RedisCmd.hset key field value] ∧
      saveAllHashCacheCmds key kvs ttl = [RedisCmd.hsetAll key kvs] ∧
      (execCmds s (saveHashCacheCmds key field value ttl)).expiry = s.expiry ∧
      (execCmds s (saveAllHashCacheCmds key kvs ttl)).expiry = s.expiry) ∧
    (execCmds s (saveHashCacheCmds key field value ttl)).fields =
      hsetField s.fields field value := by
  by_cases h : ttl > 0
  · refine ⟨fun _ => ?_, fun hle => absurd h (by omega), ?_⟩
    · constructor <;>
        simp [saveHashCacheCmds, saveAllHashCacheCmds, execCmds, execCmd, h]
    · simp [saveHashCacheCmds, execCmds, execCmd, h]
  · refine ⟨fun hgt => absurd hgt h, fun _ => ?_, ?_⟩
    · refine ⟨by simp [saveHashCacheCmds, h], by simp [saveAllHashCacheCmds, h], ?_, ?_⟩ <;>
        simp [saveHashCacheCmds, saveAllHashCacheCmds, execCmds, execCmd, h]
    · simp [saveHashCacheCmds, execCmds, execCmd, h]

/-- Witness for C8 (amended): a positive ttl of 60 is written to the key;
a ttl of 0 on a key currently expiring in 9 leaves the 9 in place. -/
theorem c8_saveHashCache_ttl_spec_witness :
    (execCmds ⟨[], none⟩ (saveHashCacheCmds "k" "f" "v" 60)).expiry = some 60 ∧
    (execCmds ⟨[("g", "w")], some 9⟩ (saveHashCacheCmds "k" "f" "v" 0)).expiry =
      some 9 := by
  refine ⟨((c8_saveHashCache_ttl_spec "k" "f" "v" [] 60 ⟨[], none⟩).1
    (by decide)).1, ?_⟩
  exact ((c8_saveHashCache_ttl_spec "k" "f" "v" [] 0
    ⟨[("g", "w")], some 9⟩).2.1 (by decide)).2.2.1

/-- `Base` reduced to its identity field: the audit timestamps are set by
the ORM and play no role in the claims.  A UUID is modelled as a natural
number; the random `uuid.New()` is the explicit `fresh` argument. -/
structure Base where
  ID : Option Nat
  deriving DecidableEq

/-- `Base.BeforeCreate`: generates an identifier exactly when `ID` is nil. -/
def Base.BeforeCreate (b : Base) (fresh : Nat) : Base :=
  match b.ID with
  | none => { b with ID := some fresh }
  | some _ => b

/-- `BaseHardDelete` reduced to its identity field. -/
structure BaseHardDelete where
  ID : Option Nat
  deriving DecidableEq

/-- `BaseHardDelete.BeforeCreate`: same hook as `Base.BeforeCreate`. -/
def BaseHardDelete.BeforeCreate (b : BaseHardDelete) (fresh : Nat) :
    BaseHardDelete :=
  match b.ID with
  | none => { b with ID := some fresh }
  | some _ => b

/-- `Create`: the `BeforeCreate` hook runs, then the record is inserted. -/
def createBase (t : List Base) (b : Base) (fresh : Nat) : List Base :=
  t ++ [b.BeforeCreate fresh]

/-- `FindOne(id, ...)`: first record whose identifier matches,
`recordNotFound` when there is none. -/
def findOneBase (t : List Base) (id : Nat) : Except DBErr Base :=
  match t.find? (fun r => r.ID == some id) with
  | none => .error DBErr.recordNotFound
  | some r => .ok r

/-- C9: the creation hook assigns a generated identifier exactly when the
record's identifier is nil — a non-nil identifier is never reassigned, for
`Base` and `BaseHardDelete` alike — and consequently `create` of a record
without an identifier followed by `findOne` on the generated identifier
returns the record with the auto-assigned identifier. -/
theorem c9_beforeCreate_spec (b : Base) (fresh : Nat) (t : List Base)
    (hb : b.ID = none) (hfresh : ∀ r ∈ t, r.ID ≠ some fresh) :
    (b.BeforeCreate fresh).ID = some fresh ∧
    (∀ b' : Base, ∀ u : Nat, b'.ID = some u → b'.BeforeCreate fresh = b') ∧
    (∀ bh : BaseHardDelete,
      (bh.ID = none → (bh.BeforeCreate fresh).ID = some fresh) ∧
      (∀ u : Nat, bh.ID = some u → bh.BeforeCreate fresh = bh)) ∧
    findOneBase (createBase t b fresh) fresh = .ok { b with ID := some fresh } := by
  refine ⟨by simp [Base.BeforeCreate, hb], ?_, ?_, ?_⟩
  · intro b' u h
    simp [Base.BeforeCreate, h]
  · intro bh
    constructor
    · intro h
      simp [BaseHardDelete.BeforeCreate, h]
    · intro u h
      simp [BaseHardDelete.BeforeCreate, h]
  · unfold findOneBase createBase
    have hnone : t.find? (fun r => r.ID == some fresh) = none := by
      rw [List.find?_eq_none]
      intro x hx
      simp only [beq_iff_eq]
      exact hfresh x hx
    rw [List.find?_append, hnone, Option.none_or]
    have hid : (b.BeforeCreate fresh).ID = some fresh := by
      simp [Base.BeforeCreate, hb]
    have hbc : b.BeforeCreate fresh = { b with ID := some fresh } := by
      simp [Base.BeforeCreate, hb]
    simp [List.find?, hid, hbc]

/-- Witness for C9: creating the identifier-less record in a table that
already holds a record with identifier 1, with generated identifier 7. -/
theorem c9_beforeCreate_spec_witness :
    findOneBase (createBase [⟨some 1⟩] ⟨none⟩ 7) 7 = .ok ⟨some 7⟩ :=
  (c9_beforeCreate_spec ⟨none⟩ 7 [⟨some 1⟩] rfl (by decide)).2.2.2

/-- C10: `CalItemPerPage` stores `ItemCount` into `ItemsPerPage` exactly
when `ItemCount < ItemsPerPage` and leaves the record unchanged otherwise;
with `ItemCount = 5` it stores 5 — below the documented minimum of 10 — so
the [10,100] clamp is not an invariant preserved by every exported
operation; it is re-established only by a later `GetItemPerPage`, whose
result always lies in [10,100]. -/
theorem c10_calItemPerPage_spec :
    (∀ p : PaginationMetadata,
      p.CalItemPerPage =
        if p.ItemCount < p.ItemsPerPage then { p with ItemsPerPage := p.ItemCount }
        else p) ∧
    ((⟨10, 5, 47, 1, 0⟩ : PaginationMetadata).CalItemPerPage).ItemsPerPage = 5 ∧
    (((⟨10, 5, 47, 1, 0⟩ : PaginationMetadata).CalItemPerPage).GetItemPerPage).1 = 10 ∧
    (∀ p : PaginationMetadata,
      10 ≤ (p.GetItemPerPage).1 ∧ (p.GetItemPerPage).1 ≤ 100) := by
  refine ⟨fun p => rfl, by decide, by decide,
    fun p => ⟨getItemPerPage_lb p, getItemPerPage_ub p⟩⟩

end Repositorysdk
